import Mathlib

/-!
Verification of the `weighted-select` stream combinator.

The Rust library merges several streams into one, polling them according to
fixed integer priority weights.  The chain of `SelectPart`s is embedded here as
a `List Part` whose head is the most recently appended segment and whose empty
list is the `Terminal` sentinel; an underlying stream is embedded as the
function from its poll index to the outcome of that poll, together with the
state of its `Fuse` wrapper (poll position and fuse flag).
-/

namespace WeightedSelect

/-- Outcome of one poll: `Poll<Option<Item>, Error>` from futures 0.1.
`notReady` is `Ok(Async::NotReady)`, `item a` is `Ok(Async::Ready(Some(a)))`,
`done` is `Ok(Async::Ready(None))` and `err e` is `Err(e)`. -/
inductive POut (α ε : Type) where
  | notReady : POut α ε
  | item : α → POut α ε
  | done : POut α ε
  | err : ε → POut α ε
deriving DecidableEq

/-- One `SelectPart` segment: the fused stream (behaviour `src`, poll position
`pos`, fuse flag `fused`), its weight and the two cumulative boundaries. -/
structure Part (α ε : Type) where
  src : Nat → POut α ε
  weight : Nat
  start_at : Nat
  prev_start_at : Nat
  pos : Nat
  fused : Bool

variable {α ε : Type}

/-- Polling a `Fuse<S>` (futures 0.1): once the underlying stream has reported
completion the fuse flag is set and later polls return completion without
touching the stream; errors and items pass through unchanged. -/
def fusePoll (p : Part α ε) : POut α ε × Part α ε :=
  if p.fused then (POut.done, p)
  else
    match p.src p.pos with
    | POut.done => (POut.done, { p with pos := p.pos + 1, fused := true })
    | POut.notReady => (POut.notReady, { p with pos := p.pos + 1 })
    | POut.item a => (POut.item a, { p with pos := p.pos + 1 })
    | POut.err e => (POut.err e, { p with pos := p.pos + 1 })

/-- The own-stream half of `SelectPart::poll_chain`: poll this segment's fused
stream and combine the outcome with `next_done`, mirroring the final `match`
of the Rust method. -/
def ownStep (p : Part α ε) (cursor : Nat) (next_done : Bool)
    (rest : List (Part α ε)) : Nat × POut α ε × List (Part α ε) :=
  match fusePoll p with
  | (POut.done, p2) =>
      if next_done then (p.prev_start_at, POut.done, p2 :: rest)
      else (p.prev_start_at, POut.notReady, p2 :: rest)
  | (POut.notReady, p2) => (p.prev_start_at, POut.notReady, p2 :: rest)
  | (POut.err e, p2) => (p.prev_start_at, POut.err e, p2 :: rest)
  | (POut.item a, p2) => (cursor + 1, POut.item a, p2 :: rest)

/-- `SelectPart::poll_chain` and `Terminal::poll_chain`, over the chain as a
list whose head is the most recently appended segment; `[]` is the terminal
sentinel, which always answers `(0, Completed)`. -/
def poll_chain : List (Part α ε) → Nat → Nat × POut α ε × List (Part α ε)
  | [], _ => (0, POut.done, [])
  | p :: rest, cursor =>
    if cursor < p.start_at then
      match poll_chain rest cursor with
      | (cnt, POut.done, rest2) => ownStep p cnt true rest2
      | (cnt, POut.notReady, rest2) => ownStep p cnt false rest2
      | (cnt, POut.item a, rest2) => (cnt, POut.item a, p :: rest2)
      | (cnt, POut.err e, rest2) => (cnt, POut.err e, p :: rest2)
    else
      ownStep p cursor (cursor == 0) rest

/-- The finalized merge engine (`Select`). -/
structure Select (α ε : Type) where
  head : List (Part α ε)
  cursor : Nat
  limit : Nat

/-- `Select::poll` (`impl Stream for Select`): walk the chain from the stored
cursor; on `NotReady`/`Completed` with a nonzero cursor, walk again from 0 on
the already-updated chain; store the returned count modulo `limit`. -/
def Select.poll (s : Select α ε) : POut α ε × Select α ε :=
  let r1 := poll_chain s.head s.cursor
  let r2 :=
    match r1 with
    | (_, POut.notReady, h1) => if 0 < s.cursor then poll_chain h1 0 else r1
    | (_, POut.done, h1) => if 0 < s.cursor then poll_chain h1 0 else r1
    | _ => r1
  (r2.2.1, { head := r2.2.2, cursor := r2.1 % s.limit, limit := s.limit })

/-- `append` (`SelectPart::append` and `Terminal::append`); the Rust
`assert!(weight > 0)` is modelled by returning `none` on a zero weight. -/
def append (chain : List (Part α ε)) (src : Nat → POut α ε) (weight : Nat) :
    Option (List (Part α ε)) :=
  if weight = 0 then none
  else
    match chain with
    | [] =>
        some [{ src := src, weight := weight, start_at := 0,
                prev_start_at := weight, pos := 0, fused := false }]
    | p :: rest =>
        let sa := p.start_at + p.weight
        some ({ src := src, weight := weight, start_at := sa,
                prev_start_at := sa + weight, pos := 0, fused := false } :: p :: rest)

/-- `build` (`SelectPart::build` and `Terminal::build`): the empty chain stores
limit 1 to avoid taking a remainder with divisor zero. -/
def build : List (Part α ε) → Select α ε
  | [] => { head := [], cursor := 0, limit := 1 }
  | p :: rest => { head := p :: rest, cursor := 0, limit := p.prev_start_at }

/-- The limit `build` would capture for a chain. -/
def chainLimit : List (Part α ε) → Nat
  | [] => 1
  | p :: _ => p.prev_start_at

/-- Chains reachable through the public interface: the empty chain and
everything obtained from a reachable chain by a successful `append`. -/
inductive Appended : List (Part α ε) → Prop where
  | nil : Appended []
  | snoc {ch ch' : List (Part α ε)} (src : Nat → POut α ε) (w : Nat) :
      Appended ch → append ch src w = some ch' → Appended ch'

/-- Structural well-formedness of a chain: positive weights, boundaries
`prev_start_at = start_at + weight`, consecutive segments share a boundary, and
the oldest segment starts at 0. -/
def startOk : List (Part α ε) → Prop
  | [] => True
  | [p] => p.start_at = 0 ∧ p.prev_start_at = p.weight ∧ 0 < p.weight
  | p :: q :: rest =>
      p.start_at = q.prev_start_at ∧ p.prev_start_at = p.start_at + p.weight ∧
        0 < p.weight ∧ startOk (q :: rest)

/-- Well-formedness of an engine state. -/
def SelectWF (s : Select α ε) : Prop :=
  startOk s.head ∧ s.limit = chainLimit s.head ∧ s.cursor < s.limit

/-- The immutable data of a segment: everything except the poll position and
the fuse flag. -/
def shape (p : Part α ε) : (Nat → POut α ε) × Nat × Nat × Nat :=
  (p.src, p.weight, p.start_at, p.prev_start_at)

/-- Whether every segment's fuse flag is set. -/
def allFused (ch : List (Part α ε)) : Prop := ∀ p ∈ ch, p.fused = true

/-- The engine state after `n` external polls. -/
def iterPoll (s : Select α ε) : Nat → Select α ε
  | 0 => s
  | n + 1 => (Select.poll (iterPoll s n)).2

/-- Drive the engine with at most `fuel` polls, collecting the produced items;
stops at completion or at a failure. -/
def collect : Nat → Select α ε → List α
  | 0, _ => []
  | fuel + 1, s =>
    match Select.poll s with
    | (POut.item a, s2) => a :: collect fuel s2
    | (POut.notReady, s2) => collect fuel s2
    | (POut.done, _) => []
    | (POut.err _, _) => []

/-- A finite always-ready source: the first `n` polls yield `item tag`, every
later poll reports completion (the behaviour of `iter_ok` in the tests). -/
def mkSrc (tag n : Nat) : Nat → POut Nat Unit :=
  fun i => if i < n then POut.item tag else POut.done

/-- The reference distribution of the spec (Scenario D): repeatedly take
`min(weight, remaining)` items from A, then B, then C, decrementing the
remaining counts and skipping sources already at zero, until all reach zero.
Items are the source indices 0, 1, 2.  The guard on zero weights only makes
the recursion terminate; the spec's loop assumes all weights positive. -/
def refSeq (aw bw cw an bn cn : Nat) : List Nat :=
  if h1 : aw = 0 ∨ bw = 0 ∨ cw = 0 then []
  else if h2 : an = 0 ∧ bn = 0 ∧ cn = 0 then []
  else
    List.replicate (min aw an) 0 ++ List.replicate (min bw bn) 1 ++
      List.replicate (min cw cn) 2 ++ refSeq aw bw cw (an - aw) (bn - bw) (cn - cw)
termination_by an + bn + cn
decreasing_by omega

/-- Remaining output of the reference distribution from the middle of a lap:
the cursor `c` tells how much of the current lap is already spent, so each
source can still contribute the unspent part of its window this lap, after
which full laps continue with the decremented counts. -/
def refFrom (aw bw cw ra rb rc c : Nat) : List Nat :=
  List.replicate (min (aw - c) ra) 0 ++
    List.replicate (min (aw + bw - max c aw) rb) 1 ++
      List.replicate (min (aw + bw + cw - max c (aw + bw)) rc) 2 ++
        refSeq aw bw cw (ra - (aw - c)) (rb - (aw + bw - max c aw))
          (rc - (aw + bw + cw - max c (aw + bw)))

/-- Poll position of a fused always-ready source with `n` items whose state is
`some k` (still live, `k` items consumed) or `none` (exhaustion discovered). -/
def stPos (n : Nat) : Option Nat → Nat
  | some k => k
  | none => n + 1

/-- Validity of a source state for a source with `n` items. -/
def stValid (n : Nat) : Option Nat → Prop
  | some k => k ≤ n
  | none => True

/-- Remaining items of a source with `n` items in a given state. -/
def rem (n : Nat) : Option Nat → Nat
  | some k => n - k
  | none => 0

/-- State of a source with `n` items after one poll of its fused stream. -/
def stStep (n : Nat) : Option Nat → Option Nat
  | some k => if k < n then some (k + 1) else none
  | none => none

/-- The segment for source `tag` with `n` items, weight `w`, window start
`start` and source state `st`. -/
def mkPart (tag n w start : Nat) (st : Option Nat) : Part Nat Unit :=
  { src := mkSrc tag n, weight := w, start_at := start, prev_start_at := start + w,
    pos := stPos n st, fused := st.isNone }

/-- The chain of three always-ready sources A (weight `aw`, `an` items),
B (`bw`, `bn`) and C (`cw`, `cn`), appended in that order, with the given
source states. -/
def chain3 (aw bw cw an bn cn : Nat) (sa sb sc : Option Nat) : List (Part Nat Unit) :=
  [mkPart 2 cn cw (aw + bw) sc, mkPart 1 bn bw aw sb, mkPart 0 an aw 0 sa]

/-- The engine over `chain3` with cursor `c`. -/
def mkSel (aw bw cw an bn cn : Nat) (sa sb sc : Option Nat) (c : Nat) : Select Nat Unit :=
  { head := chain3 aw bw cw an bn cn sa sb sc, cursor := c, limit := aw + bw + cw }

/-- The `debug_assert`s of the Rust walk, checked along the same recursion:
`debug_assert!(cursor >= self.start_at)` in the segment case and
`debug_assert_eq!(cursor, 0)` in the terminal case. -/
def assertsOk : List (Part α ε) → Nat → Bool
  | [], cursor => cursor == 0
  | p :: rest, cursor =>
    if cursor < p.start_at then
      match poll_chain rest cursor with
      | (cnt, POut.done, _) => assertsOk rest cursor && decide (p.start_at ≤ cnt)
      | (cnt, POut.notReady, _) => assertsOk rest cursor && decide (p.start_at ≤ cnt)
      | _ => assertsOk rest cursor
    else
      decide (p.start_at ≤ cursor)

/-- All `debug_assert`s encountered during one `Select::poll` call hold: those
of the first walk and, when the retry from cursor 0 happens, those of the
second walk on the updated chain. -/
def Select.pollAssertsOk (s : Select α ε) : Bool :=
  assertsOk s.head s.cursor &&
    match poll_chain s.head s.cursor with
    | (_, POut.notReady, h1) => if 0 < s.cursor then assertsOk h1 0 else true
    | (_, POut.done, h1) => if 0 < s.cursor then assertsOk h1 0 else true
    | _ => true

/-- A segment whose source is never ready (used as a concrete test input). -/
def demoNR : Part Nat Unit :=
  { src := fun _ => POut.notReady, weight := 2, start_at := 0, prev_start_at := 2,
    pos := 0, fused := false }

/-- Engine over `demoNR` resumed mid-lap (used as a concrete test input). -/
def demoSelNR : Select Nat Unit := { head := [demoNR], cursor := 1, limit := 2 }

/-- A segment whose source fails immediately (used as a concrete test input). -/
def demoErr : Part Nat Nat :=
  { src := fun _ => POut.err 7, weight := 2, start_at := 0, prev_start_at := 2,
    pos := 0, fused := false }

/-- The chain with one always-ready source of two items at weight 1: the result
of appending `mkSrc 0 2` to the empty chain (used as a concrete test input). -/
def demoChain : List (Part Nat Unit) :=
  [{ src := mkSrc 0 2, weight := 1, start_at := 0, prev_start_at := 1,
     pos := 0, fused := false }]

/-- The exhausted segment of `demoChain` after three polls. -/
def demoDonePart : Part Nat Unit :=
  { src := mkSrc 0 2, weight := 1, start_at := 0, prev_start_at := 1,
    pos := 3, fused := true }

/-- The state of `build demoChain` after its three polls: both items produced
and completion observed (used as a concrete test input). -/
def demoDone : Select Nat Unit :=
  { head := [demoDonePart], cursor := 0, limit := 1 }

/-- The chain used by the C8 counterexample: one source of weight 5 appended to
the empty chain. -/
def c8chain : List (Part Nat Nat) :=
  [{ src := fun _ => POut.done, weight := 5, start_at := 0, prev_start_at := 5,
     pos := 0, fused := false }]

/-- The chain of the C1 witness: source A = two items, weight 1. -/
def c1chain1 : List (Part Nat Unit) :=
  [{ src := mkSrc 0 2, weight := 1, start_at := 0, prev_start_at := 1,
     pos := 0, fused := false }]

/-- The chain of the C1 witness after appending B = three items, weight 3. -/
def c1chain2 : List (Part Nat Unit) :=
  { src := mkSrc 1 3, weight := 3, start_at := 1, prev_start_at := 4,
    pos := 0, fused := false } :: c1chain1

/-- The chain of the C1 witness after appending C = four items, weight 1. -/
def c1chain3 : List (Part Nat Unit) :=
  { src := mkSrc 2 4, weight := 1, start_at := 4, prev_start_at := 5,
    pos := 0, fused := false } :: c1chain2

/-! ### Structural lemmas: the walk only changes poll positions and fuse flags -/

theorem fusePoll_shape (p : Part α ε) : shape (fusePoll p).2 = shape p := by
  unfold fusePoll
  split
  · rfl
  · cases hs : p.src p.pos <;> simp [hs, shape]

theorem ownStep_parts (p : Part α ε) (c : Nat) (nd : Bool) (rest : List (Part α ε)) :
    (ownStep p c nd rest).2.2 = (fusePoll p).2 :: rest := by
  unfold ownStep
  rcases h : fusePoll p with ⟨r, p2⟩
  cases r <;> cases nd <;> simp [h]

theorem poll_chain_shape (ch : List (Part α ε)) (c : Nat) :
    ((poll_chain ch c).2.2).map shape = ch.map shape := by
  induction ch generalizing c with
  | nil => rfl
  | cons p rest ih =>
    unfold poll_chain
    split
    · rcases hr : poll_chain rest c with ⟨cnt, res, rest2⟩
      have h2 : rest2.map shape = rest.map shape := by
        have h3 := ih c; rw [hr] at h3; exact h3
      cases res <;> simp [ownStep_parts, fusePoll_shape, h2]
    · simp [ownStep_parts, fusePoll_shape]

theorem chainLimit_congr {ch ch' : List (Part α ε)} (h : ch.map shape = ch'.map shape) :
    chainLimit ch = chainLimit ch' := by
  cases ch with
  | nil => cases ch' with
    | nil => rfl
    | cons q t => simp at h
  | cons p t =>
    cases ch' with
    | nil => simp at h
    | cons q t2 =>
      simp only [List.map_cons, List.cons.injEq] at h
      have h4 : p.prev_start_at = q.prev_start_at := by
        have h5 := h.1
        unfold shape at h5
        simp [Prod.mk.injEq] at h5
        exact h5.2.2.2
      simp [chainLimit, h4]

theorem startOk_congr {ch ch' : List (Part α ε)} (h : ch.map shape = ch'.map shape)
    (hok : startOk ch) : startOk ch' := by
  induction ch generalizing ch' with
  | nil => cases ch' with
    | nil => trivial
    | cons q t => simp at h
  | cons p t ih =>
    cases ch' with
    | nil => simp at h
    | cons q t2 =>
      simp only [List.map_cons, List.cons.injEq] at h
      obtain ⟨hpq, ht⟩ := h
      unfold shape at hpq
      simp only [Prod.mk.injEq] at hpq
      obtain ⟨h1, h2, h3, h4⟩ := hpq
      cases t with
      | nil =>
        cases t2 with
        | nil =>
          unfold startOk at hok ⊢
          omega
        | cons r2 tt2 => simp at ht
      | cons r tt =>
        cases t2 with
        | nil => simp at ht
        | cons r2 tt2 =>
          have hr : r.prev_start_at = r2.prev_start_at := by
            have h5 : shape r = shape r2 := by
              simp only [List.map_cons, List.cons.injEq] at ht
              exact ht.1
            unfold shape at h5
            simp only [Prod.mk.injEq] at h5
            exact h5.2.2.2
          unfold startOk at hok ⊢
          exact ⟨by omega, by omega, by omega, ih ht hok.2.2.2⟩

/-! ### Stall counts: a `NotReady`/`Completed` answer carries `prev_start_at` -/

theorem ownStep_stall_cnt (p : Part α ε) (c : Nat) (nd : Bool) (rest : List (Part α ε))
    (hres : (ownStep p c nd rest).2.1 = POut.notReady ∨
      (ownStep p c nd rest).2.1 = POut.done) :
    (ownStep p c nd rest).1 = p.prev_start_at := by
  unfold ownStep at hres ⊢
  rcases hf : fusePoll p with ⟨r, p2⟩
  simp only [hf] at hres ⊢
  cases r <;> cases nd <;> simp_all

theorem poll_chain_stall_cnt (p : Part α ε) (rest : List (Part α ε)) (c : Nat)
    (hres : (poll_chain (p :: rest) c).2.1 = POut.notReady ∨
      (poll_chain (p :: rest) c).2.1 = POut.done) :
    (poll_chain (p :: rest) c).1 = p.prev_start_at := by
  unfold poll_chain at hres ⊢
  by_cases hc : c < p.start_at
  · simp only [if_pos hc] at hres ⊢
    rcases hr : poll_chain rest c with ⟨cnt, res, rest2⟩
    simp only [hr] at hres ⊢
    cases res with
    | notReady => exact ownStep_stall_cnt p cnt false rest2 hres
    | item a => simp at hres
    | done => exact ownStep_stall_cnt p cnt true rest2 hres
    | err e => simp at hres
  · simp only [if_neg hc] at hres ⊢
    exact ownStep_stall_cnt p c (c == 0) rest hres

/-! ### Well-formedness and its preservation -/

theorem startOk_head {p : Part α ε} {rest : List (Part α ε)} (h : startOk (p :: rest)) :
    p.prev_start_at = p.start_at + p.weight ∧ 0 < p.weight := by
  cases rest with
  | nil =>
    unfold startOk at h
    exact ⟨by omega, h.2.2⟩
  | cons q t =>
    unfold startOk at h
    exact ⟨h.2.1, h.2.2.1⟩

theorem startOk_tail {p : Part α ε} {rest : List (Part α ε)} (h : startOk (p :: rest)) :
    startOk rest := by
  cases rest with
  | nil => trivial
  | cons q t =>
    unfold startOk at h
    exact h.2.2.2

theorem startOk_link {p q : Part α ε} {t : List (Part α ε)} (h : startOk (p :: q :: t)) :
    p.start_at = q.prev_start_at := by
  unfold startOk at h
  exact h.1

theorem chainLimit_pos {ch : List (Part α ε)} (h : startOk ch) : 0 < chainLimit ch := by
  cases ch with
  | nil => exact Nat.one_pos
  | cons p t =>
    have h2 := startOk_head h
    show 0 < p.prev_start_at
    omega

theorem append_startOk {ch ch' : List (Part α ε)} {src : Nat → POut α ε} {w : Nat}
    (h : append ch src w = some ch') (hok : startOk ch) : startOk ch' := by
  unfold append at h
  by_cases hw : w = 0
  · simp [hw] at h
  · simp only [hw, if_false] at h
    cases ch with
    | nil =>
      cases h
      unfold startOk
      exact ⟨rfl, rfl, show 0 < w by omega⟩
    | cons p rest =>
      cases h
      have h2 := startOk_head hok
      unfold startOk
      exact ⟨show p.start_at + p.weight = p.prev_start_at by omega, rfl,
        show 0 < w by omega, hok⟩

theorem appended_startOk {ch : List (Part α ε)} (h : Appended ch) : startOk ch := by
  induction h with
  | nil => trivial
  | snoc src w hch happ ih => exact append_startOk happ ih

theorem build_WF {ch : List (Part α ε)} (h : Appended ch) : SelectWF (build ch) := by
  have hok := appended_startOk h
  have hpos := chainLimit_pos hok
  cases ch with
  | nil => exact ⟨trivial, rfl, Nat.one_pos⟩
  | cons p t => exact ⟨hok, rfl, show 0 < p.prev_start_at from hpos⟩

theorem poll_limit (s : Select α ε) : (Select.poll s).2.limit = s.limit := rfl

theorem poll_head_shape (s : Select α ε) :
    ((Select.poll s).2.head).map shape = s.head.map shape := by
  simp only [Select.poll]
  rcases hr1 : poll_chain s.head s.cursor with ⟨cnt, res, h1⟩
  have e1 : h1.map shape = s.head.map shape := by
    have h3 := poll_chain_shape s.head s.cursor
    rw [hr1] at h3
    exact h3
  have e2 : ∀ c, ((poll_chain h1 c).2.2).map shape = s.head.map shape := by
    intro c
    rw [poll_chain_shape h1 c]
    exact e1
  cases res <;> simp only [hr1] <;> try exact e1
  · split
    · exact e2 0
    · exact e1
  · split
    · exact e2 0
    · exact e1

theorem poll_cursor_lt (s : Select α ε) (h : 0 < s.limit) :
    (Select.poll s).2.cursor < s.limit := by
  simp only [Select.poll]
  exact Nat.mod_lt _ h

theorem poll_WF {s : Select α ε} (h : SelectWF s) : SelectWF (Select.poll s).2 := by
  obtain ⟨hok, hlim, hcur⟩ := h
  have hsh := poll_head_shape s
  refine ⟨startOk_congr hsh.symm hok, ?_, ?_⟩
  · rw [poll_limit, hlim]
    exact chainLimit_congr hsh.symm
  · rw [poll_limit]
    exact poll_cursor_lt s (by rw [hlim]; exact chainLimit_pos hok)

theorem iterPoll_WF {s : Select α ε} (h : SelectWF s) (n : Nat) : SelectWF (iterPoll s n) := by
  induction n with
  | zero => exact h
  | succ n ih => exact poll_WF ih

theorem iterPoll_limit (s : Select α ε) (n : Nat) : (iterPoll s n).limit = s.limit := by
  induction n with
  | zero => rfl
  | succ n ih => rw [iterPoll, poll_limit, ih]

/-! ### A stalled poll resets the cursor to 0 -/

theorem poll_chain_stall_mod (ch : List (Part α ε)) (c : Nat)
    (hres : (poll_chain ch c).2.1 = POut.notReady ∨ (poll_chain ch c).2.1 = POut.done) :
    (poll_chain ch c).1 % chainLimit ch = 0 := by
  cases ch with
  | nil => rfl
  | cons p rest =>
    rw [poll_chain_stall_cnt p rest c hres]
    exact Nat.mod_self _

theorem poll_stall_cursor {s : Select α ε} (h : SelectWF s)
    (hres : (Select.poll s).1 = POut.notReady ∨ (Select.poll s).1 = POut.done) :
    (Select.poll s).2.cursor = 0 := by
  obtain ⟨hok, hlim, hcur⟩ := h
  have hsh : ∀ {l : List (Part α ε)}, l.map shape = s.head.map shape →
      chainLimit l = chainLimit s.head := fun h2 => chainLimit_congr h2
  rcases hr1 : poll_chain s.head s.cursor with ⟨cnt, res, h1⟩
  have e1 : h1.map shape = s.head.map shape := by
    have h3 := poll_chain_shape s.head s.cursor
    rw [hr1] at h3
    exact h3
  cases res with
  | item a =>
    simp only [Select.poll, hr1] at hres ⊢
    simp at hres
  | err e =>
    simp only [Select.poll, hr1] at hres ⊢
    simp at hres
  | notReady =>
    simp only [Select.poll, hr1] at hres ⊢
    by_cases hc : 0 < s.cursor
    · simp only [if_pos hc] at hres ⊢
      rcases hr2 : poll_chain h1 0 with ⟨cnt2, res2, h2⟩
      simp only [hr2] at hres ⊢
      have h4 := poll_chain_stall_mod h1 0
      rw [hr2] at h4
      have h5 : cnt2 % chainLimit h1 = 0 := h4 hres
      rw [hlim, ← hsh e1]
      exact h5
    · simp only [if_neg hc] at hres ⊢
      have h4 := poll_chain_stall_mod s.head s.cursor
      rw [hr1] at h4
      rw [hlim]
      exact h4 (Or.inl rfl)
  | done =>
    simp only [Select.poll, hr1] at hres ⊢
    by_cases hc : 0 < s.cursor
    · simp only [if_pos hc] at hres ⊢
      rcases hr2 : poll_chain h1 0 with ⟨cnt2, res2, h2⟩
      simp only [hr2] at hres ⊢
      have h4 := poll_chain_stall_mod h1 0
      rw [hr2] at h4
      have h5 : cnt2 % chainLimit h1 = 0 := h4 hres
      rw [hlim, ← hsh e1]
      exact h5
    · simp only [if_neg hc] at hres ⊢
      have h4 := poll_chain_stall_mod s.head s.cursor
      rw [hr1] at h4
      rw [hlim]
      exact h4 (Or.inr rfl)

/-! ### The debug asserts hold on well-formed chains -/

theorem assertsOk_of_startOk {ch : List (Part α ε)} (hok : startOk ch) (hne : ch ≠ [])
    (c : Nat) : assertsOk ch c = true := by
  induction ch generalizing c with
  | nil => exact absurd rfl hne
  | cons p rest ih =>
    unfold assertsOk
    by_cases hc : c < p.start_at
    · simp only [if_pos hc]
      cases rest with
      | nil =>
        unfold startOk at hok
        omega
      | cons q t =>
        have hih := ih (startOk_tail hok) (by simp) c
        have hlink : p.start_at = q.prev_start_at := startOk_link hok
        rcases hr : poll_chain (q :: t) c with ⟨cnt, res, rest2⟩
        have hcnt : res = POut.notReady ∨ res = POut.done → cnt = q.prev_start_at := by
          intro hres
          have h4 := poll_chain_stall_cnt q t c
          rw [hr] at h4
          exact h4 hres
        cases res with
        | notReady => simp [hih, hcnt (Or.inl rfl), hlink]
        | done => simp [hih, hcnt (Or.inr rfl), hlink]
        | item a => exact hih
        | err e => exact hih
    · simp only [if_neg hc]
      simp
      omega

theorem pollAssertsOk_of_WF {s : Select α ε} (h : SelectWF s) :
    Select.pollAssertsOk s = true := by
  obtain ⟨hok, hlim, hcur⟩ := h
  unfold Select.pollAssertsOk
  cases hh : s.head with
  | nil =>
    have hl1 : s.limit = 1 := by
      rw [hh] at hlim
      exact hlim
    have hc0 : s.cursor = 0 := by omega
    rw [hc0]
    simp [assertsOk, poll_chain]
  | cons p t =>
    have hok2 : startOk s.head := hok
    have h1 : assertsOk s.head s.cursor = true := by
      rw [hh]
      exact assertsOk_of_startOk (hh ▸ hok) (by simp) _
    rw [← hh, h1]
    rcases hr : poll_chain s.head s.cursor with ⟨cnt, res, h2⟩
    have e1 : h2.map shape = s.head.map shape := by
      have h3 := poll_chain_shape s.head s.cursor
      rw [hr] at h3
      exact h3
    have hne2 : h2 ≠ [] := by
      intro hnil
      rw [hnil, hh] at e1
      simp at e1
    have hok3 : startOk h2 := startOk_congr e1.symm hok
    cases res with
    | notReady => simp [assertsOk_of_startOk hok3 hne2]
    | done => simp [assertsOk_of_startOk hok3 hne2]
    | item a => simp
    | err e => simp

/-! ### Permanence of completion -/

theorem fusePoll_fused {p : Part α ε} (h : p.fused = true) : fusePoll p = (POut.done, p) := by
  unfold fusePoll
  simp [h]

theorem fusePoll_done_fused {p p2 : Part α ε} (h : fusePoll p = (POut.done, p2)) :
    p2.fused = true := by
  unfold fusePoll at h
  by_cases hf : p.fused
  · simp only [hf, if_true] at h
    have h2 : p = p2 := congrArg Prod.snd h
    rw [← h2]
    exact hf
  · simp only [hf, if_false] at h
    cases hs : p.src p.pos <;> simp [hs] at h
    rw [← h]

theorem ownStep_done {p : Part α ε} {c : Nat} {nd : Bool} {rest : List (Part α ε)}
    (hres : (ownStep p c nd rest).2.1 = POut.done) :
    nd = true ∧ ((ownStep p c nd rest).2.2 = (fusePoll p).2 :: rest) ∧
      ((fusePoll p).2).fused = true := by
  unfold ownStep at hres ⊢
  rcases hf : fusePoll p with ⟨r, p2⟩
  simp only [hf] at hres ⊢
  cases r with
  | done =>
    cases nd with
    | true => exact ⟨rfl, rfl, fusePoll_done_fused hf⟩
    | false => simp at hres
  | notReady => simp at hres
  | item a => simp at hres
  | err e => simp at hres

theorem poll_chain_done_allFused {ch : List (Part α ε)} (hok : startOk ch) (c : Nat)
    (hres : (poll_chain ch c).2.1 = POut.done) : allFused (poll_chain ch c).2.2 := by
  induction ch generalizing c with
  | nil =>
    intro p hp
    simp [poll_chain] at hp
  | cons p rest ih =>
    unfold poll_chain at hres ⊢
    by_cases hc : c < p.start_at
    · simp only [if_pos hc] at hres ⊢
      rcases hr : poll_chain rest c with ⟨cnt, res, rest2⟩
      simp only [hr] at hres ⊢
      cases res with
      | done =>
        have hrest : allFused rest2 := by
          have h4 := ih (startOk_tail hok) c
          rw [hr] at h4
          exact h4 rfl
        obtain ⟨-, heq, hfu⟩ := ownStep_done hres
        rw [heq]
        intro q hq
        rcases List.mem_cons.mp hq with h5 | h5
        · rw [h5]; exact hfu
        · exact hrest q h5
      | notReady =>
        obtain ⟨hnd, -, -⟩ := ownStep_done hres
        cases hnd
      | item a => simp at hres
      | err e => simp at hres
    · simp only [if_neg hc] at hres ⊢
      obtain ⟨hnd, heq, hfu⟩ := ownStep_done hres
      have hc0 : c = 0 := by
        have := Nat.beq_eq_true_eq c 0 ▸ hnd
        omega
      cases rest with
      | nil =>
        rw [heq]
        intro q hq
        rcases List.mem_cons.mp hq with h5 | h5
        · rw [h5]; exact hfu
        · simp at h5
      | cons q t =>
        have hlink : p.start_at = q.prev_start_at := startOk_link hok
        have h6 := startOk_head (startOk_tail hok)
        omega

theorem poll_chain_allFused {ch : List (Part α ε)} (hok : startOk ch) (hf : allFused ch) :
    ch = [] ∨ poll_chain ch 0 = (chainLimit ch, POut.done, ch) := by
  induction ch with
  | nil => exact Or.inl rfl
  | cons p rest ih =>
    refine Or.inr ?_
    have hpf : p.fused = true := hf p (by simp)
    unfold poll_chain
    cases rest with
    | nil =>
      have h0 : p.start_at = 0 := by
        unfold startOk at hok
        exact hok.1
      rw [h0]
      simp only [Nat.lt_irrefl, if_false]
      unfold ownStep
      rw [fusePoll_fused hpf]
      rfl
    | cons q t =>
      have hlink : p.start_at = q.prev_start_at := startOk_link hok
      have h6 := startOk_head (startOk_tail hok)
      have hpos : 0 < p.start_at := by omega
      simp only [if_pos hpos]
      rcases ih (startOk_tail hok) (fun r hr => hf r (List.mem_cons_of_mem p hr)) with
        h7 | h7
      · simp at h7
      · rw [h7]
        unfold chainLimit
        unfold ownStep
        rw [fusePoll_fused hpf]
        rfl

theorem select_ext {s t : Select α ε} (h1 : s.head = t.head) (h2 : s.cursor = t.cursor)
    (h3 : s.limit = t.limit) : s = t := by
  cases s
  cases t
  rw [Select.mk.injEq]
  exact ⟨h1, h2, h3⟩

theorem poll_fixed_done {s : Select α ε} (h : SelectWF s) (hfused : allFused s.head)
    (hc : s.cursor = 0) : Select.poll s = (POut.done, s) := by
  obtain ⟨hok, hlim, hcur⟩ := h
  cases hh : s.head with
  | nil =>
    have key : Select.poll s =
        (POut.done,
          { head := ([] : List (Part α ε)), cursor := 0 % s.limit, limit := s.limit }) := by
      unfold Select.poll
      rw [hh, hc]
      rfl
    rw [key, Prod.mk.injEq]
    exact ⟨rfl, select_ext hh.symm (by rw [Nat.zero_mod, hc]) rfl⟩
  | cons p t =>
    have h1 : poll_chain s.head 0 = (chainLimit s.head, POut.done, s.head) := by
      rcases poll_chain_allFused hok hfused with h2 | h2
      · rw [h2] at hh
        cases hh
      · exact h2
    have key : Select.poll s =
        (POut.done,
          { head := s.head, cursor := chainLimit s.head % s.limit, limit := s.limit }) := by
      unfold Select.poll
      rw [hc, h1]
      rfl
    rw [key, Prod.mk.injEq]
    exact ⟨rfl, select_ext rfl (by rw [hlim, Nat.mod_self, hc]) rfl⟩

theorem poll_done_next {s : Select α ε} (h : SelectWF s)
    (hres : (Select.poll s).1 = POut.done) :
    allFused (Select.poll s).2.head ∧ (Select.poll s).2.cursor = 0 := by
  refine ⟨?_, poll_stall_cursor h (Or.inr hres)⟩
  obtain ⟨hok, hlim, hcur⟩ := h
  rcases hr1 : poll_chain s.head s.cursor with ⟨cnt, res, h1⟩
  have e1 : h1.map shape = s.head.map shape := by
    have h3 := poll_chain_shape s.head s.cursor
    rw [hr1] at h3
    exact h3
  have hok1 : startOk h1 := startOk_congr e1.symm hok
  cases res with
  | item a => simp only [Select.poll, hr1] at hres ⊢; simp at hres
  | err e => simp only [Select.poll, hr1] at hres ⊢; simp at hres
  | notReady =>
    simp only [Select.poll, hr1] at hres ⊢
    by_cases hcz : 0 < s.cursor
    · simp only [if_pos hcz] at hres ⊢
      have h4 := poll_chain_done_allFused hok1 0 hres
      exact h4
    · simp only [if_neg hcz] at hres
      simp at hres
  | done =>
    simp only [Select.poll, hr1] at hres ⊢
    by_cases hcz : 0 < s.cursor
    · simp only [if_pos hcz] at hres ⊢
      exact poll_chain_done_allFused hok1 0 hres
    · simp only [if_neg hcz] at hres ⊢
      have h4 := poll_chain_done_allFused hok s.cursor (by rw [hr1])
      rw [hr1] at h4
      exact h4

/-! ### The three-source always-ready system of Scenario D -/

theorem rem_some (n k : Nat) : rem n (some k) = n - k := rfl
theorem rem_none (n : Nat) : rem n none = 0 := rfl
theorem stPos_some (n k : Nat) : stPos n (some k) = k := rfl
theorem stPos_none (n : Nat) : stPos n none = n + 1 := rfl
theorem stStep_some (n k : Nat) : stStep n (some k) = if k < n then some (k + 1) else none := rfl
theorem stStep_none (n : Nat) : stStep n none = none := rfl

theorem fusePoll_mkPart (tag n w start : Nat) (st : Option Nat) (hv : stValid n st) :
    fusePoll (mkPart tag n w start st) =
      ((if 0 < rem n st then POut.item tag else POut.done),
        mkPart tag n w start (stStep n st)) := by
  cases st with
  | none => simp [fusePoll, mkPart, stStep, rem, stPos]
  | some k =>
    have hkn : k ≤ n := hv
    by_cases hk : k < n
    · have h1 : 0 < rem n (some k) := by rw [rem_some]; omega
      simp [fusePoll, mkPart, mkSrc, stStep_some, stPos_some, hk, h1]
    · have h1 : ¬ 0 < rem n (some k) := by rw [rem_some]; omega
      simp [fusePoll, mkPart, mkSrc, stStep_some, stPos_some, stPos_none, hk, h1]
      omega

theorem mkPart_start (tag n w start : Nat) (st : Option Nat) :
    (mkPart tag n w start st).start_at = start := rfl

theorem mkPart_prev (tag n w start : Nat) (st : Option Nat) :
    (mkPart tag n w start st).prev_start_at = start + w := rfl

theorem ownStep_mkPart_yield (tag n w start c : Nat) (nd : Bool)
    (rest : List (Part Nat Unit)) (st : Option Nat) (hv : stValid n st)
    (hr : 0 < rem n st) :
    ownStep (mkPart tag n w start st) c nd rest =
      (c + 1, POut.item tag, mkPart tag n w start (stStep n st) :: rest) := by
  unfold ownStep
  rw [fusePoll_mkPart tag n w start st hv, if_pos hr]

theorem ownStep_mkPart_stall (tag n w start c : Nat) (nd : Bool)
    (rest : List (Part Nat Unit)) (st : Option Nat) (hv : stValid n st)
    (hr : rem n st = 0) :
    ownStep (mkPart tag n w start st) c nd rest =
      (start + w, if nd then POut.done else POut.notReady,
        mkPart tag n w start none :: rest) := by
  unfold ownStep
  rw [fusePoll_mkPart tag n w start st hv, if_neg (by omega)]
  have h2 : stStep n st = none := by
    cases st with
    | none => rfl
    | some k =>
      rw [rem_some] at hr
      have hkn : k ≤ n := hv
      rw [stStep_some, if_neg (by omega)]
  rw [h2]
  cases nd <;> rfl

theorem poll_chain_at (p : Part Nat Unit) (rest : List (Part Nat Unit)) (c : Nat)
    (hc : ¬(c < p.start_at)) :
    poll_chain (p :: rest) c = ownStep p c (c == 0) rest := by
  unfold poll_chain
  rw [if_neg hc]

theorem poll_chain_inner_item (p : Part Nat Unit) {rest : List (Part Nat Unit)}
    {c cnt : Nat} {a : Nat} {rest2 : List (Part Nat Unit)} (hc : c < p.start_at)
    (hr : poll_chain rest c = (cnt, POut.item a, rest2)) :
    poll_chain (p :: rest) c = (cnt, POut.item a, p :: rest2) := by
  unfold poll_chain
  rw [if_pos hc, hr]

theorem poll_chain_inner_done (p : Part Nat Unit) {rest : List (Part Nat Unit)}
    {c cnt : Nat} {rest2 : List (Part Nat Unit)} (hc : c < p.start_at)
    (hr : poll_chain rest c = (cnt, POut.done, rest2)) :
    poll_chain (p :: rest) c = ownStep p cnt true rest2 := by
  unfold poll_chain
  rw [if_pos hc, hr]

theorem poll_chain_inner_notReady (p : Part Nat Unit) {rest : List (Part Nat Unit)}
    {c cnt : Nat} {rest2 : List (Part Nat Unit)} (hc : c < p.start_at)
    (hr : poll_chain rest c = (cnt, POut.notReady, rest2)) :
    poll_chain (p :: rest) c = ownStep p cnt false rest2 := by
  unfold poll_chain
  rw [if_pos hc, hr]

section Walk

variable (aw bw cw an bn cn : Nat)

theorem walk1_yield (sa : Option Nat) (c : Nat) (hva : stValid an sa)
    (hra : 0 < rem an sa) :
    poll_chain [mkPart 0 an aw 0 sa] c =
      (c + 1, POut.item 0, [mkPart 0 an aw 0 (stStep an sa)]) := by
  rw [poll_chain_at _ _ _ (by rw [mkPart_start]; omega)]
  exact ownStep_mkPart_yield 0 an aw 0 c (c == 0) [] sa hva hra

theorem walk1_stall (sa : Option Nat) (c : Nat) (hva : stValid an sa)
    (hra : rem an sa = 0) :
    poll_chain [mkPart 0 an aw 0 sa] c =
      (aw, if c = 0 then POut.done else POut.notReady, [mkPart 0 an aw 0 none]) := by
  rw [poll_chain_at _ _ _ (by rw [mkPart_start]; omega)]
  rw [ownStep_mkPart_stall 0 an aw 0 c (c == 0) [] sa hva hra]
  by_cases hc0 : c = 0
  · simp [hc0]
  · simp [hc0]

theorem walk2_yield_A (sa sb : Option Nat) (c : Nat) (hva : stValid an sa)
    (hc : c < aw) (hra : 0 < rem an sa) :
    poll_chain [mkPart 1 bn bw aw sb, mkPart 0 an aw 0 sa] c =
      (c + 1, POut.item 0, [mkPart 1 bn bw aw sb, mkPart 0 an aw 0 (stStep an sa)]) :=
  poll_chain_inner_item _ (by rw [mkPart_start]; omega)
    (walk1_yield aw an sa c hva hra)

theorem walk2_yield_B (sa sb : Option Nat) (c : Nat) (hva : stValid an sa)
    (hvb : stValid bn sb) (hc : c < aw + bw) (hra : c < aw → rem an sa = 0)
    (hrb : 0 < rem bn sb) :
    poll_chain [mkPart 1 bn bw aw sb, mkPart 0 an aw 0 sa] c =
      (max c aw + 1, POut.item 1,
        [mkPart 1 bn bw aw (stStep bn sb),
          mkPart 0 an aw 0 (if c < aw then none else sa)]) := by
  by_cases hca : c < aw
  · have hm : max c aw = aw := by omega
    rw [hm, if_pos hca]
    have h1 := walk1_stall aw an sa c hva (hra hca)
    by_cases hc0 : c = 0
    · rw [if_pos hc0] at h1
      rw [poll_chain_inner_done _ (by rw [mkPart_start]; omega) h1]
      exact ownStep_mkPart_yield 1 bn bw aw aw true _ sb hvb hrb
    · rw [if_neg hc0] at h1
      rw [poll_chain_inner_notReady _ (by rw [mkPart_start]; omega) h1]
      exact ownStep_mkPart_yield 1 bn bw aw aw false _ sb hvb hrb
  · have hm : max c aw = c := by omega
    rw [hm, if_neg hca]
    rw [poll_chain_at _ _ _ (by rw [mkPart_start]; omega)]
    exact ownStep_mkPart_yield 1 bn bw aw c (c == 0) _ sb hvb hrb

theorem walk2_stall (sa sb : Option Nat) (c : Nat) (hva : stValid an sa)
    (hvb : stValid bn sb) (hra : c < aw → rem an sa = 0) (hrb : rem bn sb = 0) :
    poll_chain [mkPart 1 bn bw aw sb, mkPart 0 an aw 0 sa] c =
      (aw + bw, if c = 0 then POut.done else POut.notReady,
        [mkPart 1 bn bw aw none, mkPart 0 an aw 0 (if c < aw then none else sa)]) := by
  by_cases hca : c < aw
  · rw [if_pos hca]
    have h1 := walk1_stall aw an sa c hva (hra hca)
    by_cases hc0 : c = 0
    · rw [if_pos hc0] at h1
      rw [poll_chain_inner_done _ (by rw [mkPart_start]; omega) h1]
      rw [ownStep_mkPart_stall 1 bn bw aw aw true _ sb hvb hrb]
      simp [hc0]
    · rw [if_neg hc0] at h1
      rw [poll_chain_inner_notReady _ (by rw [mkPart_start]; omega) h1]
      rw [ownStep_mkPart_stall 1 bn bw aw aw false _ sb hvb hrb]
      simp [hc0]
  · rw [if_neg hca]
    rw [poll_chain_at _ _ _ (by rw [mkPart_start]; omega)]
    rw [ownStep_mkPart_stall 1 bn bw aw c (c == 0) _ sb hvb hrb]
    by_cases hc0 : c = 0
    · simp [hc0]
    · simp [hc0]

end Walk

section Walk3

variable (aw bw cw an bn cn : Nat)

theorem walk3_yield_A (sa sb sc : Option Nat) (c : Nat) (hva : stValid an sa)
    (hc : c < aw) (hra : 0 < rem an sa) :
    poll_chain (chain3 aw bw cw an bn cn sa sb sc) c =
      (c + 1, POut.item 0, chain3 aw bw cw an bn cn (stStep an sa) sb sc) := by
  simp only [chain3]
  exact poll_chain_inner_item _ (by rw [mkPart_start]; omega)
    (walk2_yield_A aw bw an bn sa sb c hva hc hra)

theorem walk3_yield_B (sa sb sc : Option Nat) (c : Nat) (hva : stValid an sa)
    (hvb : stValid bn sb) (hc : c < aw + bw) (hra : c < aw → rem an sa = 0)
    (hrb : 0 < rem bn sb) :
    poll_chain (chain3 aw bw cw an bn cn sa sb sc) c =
      (max c aw + 1, POut.item 1,
        chain3 aw bw cw an bn cn (if c < aw then none else sa) (stStep bn sb) sc) := by
  simp only [chain3]
  exact poll_chain_inner_item _ (by rw [mkPart_start]; omega)
    (walk2_yield_B aw bw an bn sa sb c hva hvb hc hra hrb)

theorem walk3_yield_C (sa sb sc : Option Nat) (c : Nat) (hva : stValid an sa)
    (hvb : stValid bn sb) (hvc : stValid cn sc) (hra : c < aw → rem an sa = 0)
    (hrb : c < aw + bw → rem bn sb = 0) (hrc : 0 < rem cn sc) :
    poll_chain (chain3 aw bw cw an bn cn sa sb sc) c =
      (max c (aw + bw) + 1, POut.item 2,
        chain3 aw bw cw an bn cn (if c < aw then none else sa)
          (if c < aw + bw then none else sb) (stStep cn sc)) := by
  simp only [chain3]
  by_cases hcb : c < aw + bw
  · have hm : max c (aw + bw) = aw + bw := by omega
    rw [hm, if_pos hcb]
    have h1 := walk2_stall aw bw an bn sa sb c hva hvb hra (hrb hcb)
    by_cases hc0 : c = 0
    · rw [if_pos hc0] at h1
      rw [poll_chain_inner_done _ (by rw [mkPart_start]; omega) h1]
      exact ownStep_mkPart_yield 2 cn cw (aw + bw) (aw + bw) true _ sc hvc hrc
    · rw [if_neg hc0] at h1
      rw [poll_chain_inner_notReady _ (by rw [mkPart_start]; omega) h1]
      exact ownStep_mkPart_yield 2 cn cw (aw + bw) (aw + bw) false _ sc hvc hrc
  · have hm : max c (aw + bw) = c := by omega
    rw [hm, if_neg hcb, if_neg (by omega : ¬ c < aw)]
    rw [poll_chain_at _ _ _ (by rw [mkPart_start]; omega)]
    exact ownStep_mkPart_yield 2 cn cw (aw + bw) c (c == 0) _ sc hvc hrc

theorem walk3_stall (sa sb sc : Option Nat) (c : Nat) (hva : stValid an sa)
    (hvb : stValid bn sb) (hvc : stValid cn sc) (hra : c < aw → rem an sa = 0)
    (hrb : c < aw + bw → rem bn sb = 0) (hrc : rem cn sc = 0) :
    poll_chain (chain3 aw bw cw an bn cn sa sb sc) c =
      (aw + bw + cw, if c = 0 then POut.done else POut.notReady,
        chain3 aw bw cw an bn cn (if c < aw then none else sa)
          (if c < aw + bw then none else sb) none) := by
  simp only [chain3]
  by_cases hcb : c < aw + bw
  · rw [if_pos hcb]
    have h1 := walk2_stall aw bw an bn sa sb c hva hvb hra (hrb hcb)
    by_cases hc0 : c = 0
    · rw [if_pos hc0] at h1
      rw [poll_chain_inner_done _ (by rw [mkPart_start]; omega) h1]
      rw [ownStep_mkPart_stall 2 cn cw (aw + bw) (aw + bw) true _ sc hvc hrc]
      simp [hc0]
    · rw [if_neg hc0] at h1
      rw [poll_chain_inner_notReady _ (by rw [mkPart_start]; omega) h1]
      rw [ownStep_mkPart_stall 2 cn cw (aw + bw) (aw + bw) false _ sc hvc hrc]
      simp [hc0]
  · rw [if_neg hcb, if_neg (by omega : ¬ c < aw)]
    rw [poll_chain_at _ _ _ (by rw [mkPart_start]; omega)]
    rw [ownStep_mkPart_stall 2 cn cw (aw + bw) c (c == 0) _ sc hvc hrc]
    by_cases hc0 : c = 0
    · simp [hc0]
    · simp [hc0]

end Walk3

theorem poll_eq_item (s : Select Nat Unit) {cnt a : Nat} {h1 : List (Part Nat Unit)}
    (hr : poll_chain s.head s.cursor = (cnt, POut.item a, h1)) :
    Select.poll s =
      (POut.item a, { head := h1, cursor := cnt % s.limit, limit := s.limit }) := by
  simp [Select.poll, hr]

theorem poll_eq_zero (s : Select Nat Unit) {cnt : Nat} {res : POut Nat Unit}
    {h1 : List (Part Nat Unit)} (hr : poll_chain s.head s.cursor = (cnt, res, h1))
    (hc : s.cursor = 0) :
    Select.poll s = (res, { head := h1, cursor := cnt % s.limit, limit := s.limit }) := by
  rw [hc] at hr
  cases res <;> simp [Select.poll, hc, hr]

theorem poll_eq_retry (s : Select Nat Unit) {cnt cnt2 : Nat} {res res2 : POut Nat Unit}
    {h1 h2 : List (Part Nat Unit)} (hr : poll_chain s.head s.cursor = (cnt, res, h1))
    (hres : res = POut.notReady ∨ res = POut.done) (hc : 0 < s.cursor)
    (hr2 : poll_chain h1 0 = (cnt2, res2, h2)) :
    Select.poll s = (res2, { head := h2, cursor := cnt2 % s.limit, limit := s.limit }) := by
  rcases hres with rfl | rfl <;> simp [Select.poll, hr, hc, hr2]

theorem stValid_none (n : Nat) : stValid n none := trivial

theorem stValid_stStep (n : Nat) (st : Option Nat) (hv : stValid n st) :
    stValid n (stStep n st) := by
  cases st with
  | none => trivial
  | some k =>
    rw [stStep_some]
    by_cases hk : k < n
    · rw [if_pos hk]
      show k + 1 ≤ n
      omega
    · rw [if_neg hk]
      trivial

theorem rem_stStep (n : Nat) (st : Option Nat) (hv : stValid n st) :
    rem n (stStep n st) = rem n st - 1 := by
  cases st with
  | none => rfl
  | some k =>
    have hkn : k ≤ n := hv
    rw [stStep_some]
    by_cases hk : k < n
    · rw [if_pos hk, rem_some, rem_some]
      omega
    · rw [if_neg hk, rem_none, rem_some]
      omega

theorem stValid_iteNone (n : Nat) (st : Option Nat) (P : Prop) [Decidable P]
    (hv : stValid n st) : stValid n (if P then none else st) := by
  by_cases h : P
  · rw [if_pos h]
    trivial
  · rw [if_neg h]
    exact hv

theorem rem_iteNone (n : Nat) (st : Option Nat) (P : Prop) [Decidable P]
    (h : P → rem n st = 0) : rem n (if P then none else st) = rem n st := by
  by_cases hp : P
  · rw [if_pos hp, h hp, rem_none]
  · rw [if_neg hp]

theorem refSeq_unfold {aw bw cw : Nat} (haw : 0 < aw) (hbw : 0 < bw) (hcw : 0 < cw)
    (an bn cn : Nat) :
    refSeq aw bw cw an bn cn =
      if an = 0 ∧ bn = 0 ∧ cn = 0 then []
      else
        List.replicate (min aw an) 0 ++ List.replicate (min bw bn) 1 ++
          List.replicate (min cw cn) 2 ++ refSeq aw bw cw (an - aw) (bn - bw) (cn - cw) := by
  rw [refSeq]
  rw [dif_neg (by omega : ¬(aw = 0 ∨ bw = 0 ∨ cw = 0))]
  by_cases h : an = 0 ∧ bn = 0 ∧ cn = 0
  · rw [dif_pos h, if_pos h]
  · rw [dif_neg h, if_neg h]

theorem refFrom_step_A (aw bw cw ra rb rc c : Nat) (hc : c < aw) (hra : 0 < ra) :
    refFrom aw bw cw ra rb rc c = 0 :: refFrom aw bw cw (ra - 1) rb rc (c + 1) := by
  unfold refFrom
  have e1 : min (aw - c) ra = min (aw - (c + 1)) (ra - 1) + 1 := by omega
  have e2 : max c aw = aw := by omega
  have e3 : max (c + 1) aw = aw := by omega
  have e4 : ra - (aw - c) = (ra - 1) - (aw - (c + 1)) := by omega
  have e7 : max c (aw + bw) = aw + bw := by omega
  have e8 : max (c + 1) (aw + bw) = aw + bw := by omega
  rw [e1, e2, e3, e4, e7, e8, List.replicate_succ]
  simp

theorem refFrom_step_B (aw bw cw ra rb rc c : Nat) (hbw : 0 < bw) (hc : c < aw + bw)
    (hra : min (aw - c) ra = 0) (hrb : 0 < rb) :
    refFrom aw bw cw ra rb rc c =
      1 :: refFrom aw bw cw ra (rb - 1) rc (max c aw + 1) := by
  unfold refFrom
  have e1 : min (aw - (max c aw + 1)) ra = 0 := by omega
  have e2 : min (aw + bw - max c aw) rb =
      min (aw + bw - max (max c aw + 1) aw) (rb - 1) + 1 := by omega
  have e3 : max c (aw + bw) = aw + bw := by omega
  have e4 : max (max c aw + 1) (aw + bw) = aw + bw := by omega
  have e5 : ra - (aw - c) = ra - (aw - (max c aw + 1)) := by omega
  have e6 : rb - (aw + bw - max c aw) =
      (rb - 1) - (aw + bw - max (max c aw + 1) aw) := by omega
  rw [hra, e1, e2, e3, e4, e5, e6, List.replicate_succ]
  simp

theorem refFrom_step_C (aw bw cw ra rb rc c : Nat) (hcw : 0 < cw) (hc : c < aw + bw + cw)
    (hra : min (aw - c) ra = 0) (hrb : min (aw + bw - max c aw) rb = 0) (hrc : 0 < rc) :
    refFrom aw bw cw ra rb rc c =
      2 :: refFrom aw bw cw ra rb (rc - 1) (max c (aw + bw) + 1) := by
  unfold refFrom
  have e1 : min (aw - (max c (aw + bw) + 1)) ra = 0 := by omega
  have e2 : min (aw + bw - max (max c (aw + bw) + 1) aw) rb = 0 := by omega
  have e3 : min (aw + bw + cw - max c (aw + bw)) rc =
      min (aw + bw + cw - max (max c (aw + bw) + 1) (aw + bw)) (rc - 1) + 1 := by omega
  have e4 : ra - (aw - c) = ra - (aw - (max c (aw + bw) + 1)) := by omega
  have e5 : rb - (aw + bw - max c aw) =
      rb - (aw + bw - max (max c (aw + bw) + 1) aw) := by omega
  have e6 : rc - (aw + bw + cw - max c (aw + bw)) =
      (rc - 1) - (aw + bw + cw - max (max c (aw + bw) + 1) (aw + bw)) := by omega
  rw [hra, hrb, e1, e2, e3, e4, e5, e6, List.replicate_succ]
  simp

theorem refFrom_spent (aw bw cw ra rb rc c : Nat) (hra : min (aw - c) ra = 0)
    (hrb : min (aw + bw - max c aw) rb = 0)
    (hrc : min (aw + bw + cw - max c (aw + bw)) rc = 0) :
    refFrom aw bw cw ra rb rc c = refSeq aw bw cw ra rb rc := by
  unfold refFrom
  have e1 : ra - (aw - c) = ra := by omega
  have e2 : rb - (aw + bw - max c aw) = rb := by omega
  have e3 : rc - (aw + bw + cw - max c (aw + bw)) = rc := by omega
  rw [hra, hrb, hrc, e1, e2, e3]
  simp

theorem refFrom_zero (aw bw cw ra rb rc : Nat) (haw : 0 < aw) (hbw : 0 < bw)
    (hcw : 0 < cw) :
    refFrom aw bw cw ra rb rc 0 = refSeq aw bw cw ra rb rc := by
  rw [refSeq_unfold haw hbw hcw]
  unfold refFrom
  by_cases hz : ra = 0 ∧ rb = 0 ∧ rc = 0
  · rw [if_pos hz]
    obtain ⟨rfl, rfl, rfl⟩ := hz
    simp [refSeq]
  · rw [if_neg hz]
    have e1 : aw - 0 = aw := by omega
    have e2 : max 0 aw = aw := by omega
    have e3 : max 0 (aw + bw) = aw + bw := by omega
    have e4 : aw + bw - aw = bw := by omega
    have e5 : aw + bw + cw - (aw + bw) = cw := by omega
    rw [e1, e2, e3, e4, e5]

theorem refFrom_zero_rem (aw bw cw c : Nat) :
    refFrom aw bw cw 0 0 0 c = [] := by
  unfold refFrom
  simp [refSeq]

theorem refFrom_mod (aw bw cw ra rb rc c2 : Nat) (haw : 0 < aw) (hbw : 0 < bw)
    (hcw : 0 < cw) (hcle : c2 ≤ aw + bw + cw) :
    refFrom aw bw cw ra rb rc (c2 % (aw + bw + cw)) = refFrom aw bw cw ra rb rc c2 := by
  by_cases hlt : c2 < aw + bw + cw
  · rw [Nat.mod_eq_of_lt hlt]
  · have heq : c2 = aw + bw + cw := by omega
    subst heq
    rw [Nat.mod_self, refFrom_zero aw bw cw ra rb rc haw hbw hcw]
    rw [refFrom_spent aw bw cw ra rb rc (aw + bw + cw) (by omega) (by omega) (by omega)]

section Poll3

variable (aw bw cw an bn cn : Nat)

theorem poll3_yield_A (sa sb sc : Option Nat) (c : Nat) (hva : stValid an sa)
    (hbw : 0 < bw) (hcw : 0 < cw) (hc : c < aw) (hra : 0 < rem an sa) :
    Select.poll (mkSel aw bw cw an bn cn sa sb sc c) =
      (POut.item 0, mkSel aw bw cw an bn cn (stStep an sa) sb sc (c + 1)) := by
  rw [poll_eq_item (mkSel aw bw cw an bn cn sa sb sc c)
    (walk3_yield_A aw bw cw an bn cn sa sb sc c hva hc hra)]
  rw [Prod.mk.injEq]
  exact ⟨rfl, select_ext rfl
    (Nat.mod_eq_of_lt (by show c + 1 < aw + bw + cw; omega)) rfl⟩

theorem poll3_yield_B (sa sb sc : Option Nat) (c : Nat) (hva : stValid an sa)
    (hvb : stValid bn sb) (hbw : 0 < bw) (hcw : 0 < cw) (hc : c < aw + bw)
    (hra : c < aw → rem an sa = 0) (hrb : 0 < rem bn sb) :
    Select.poll (mkSel aw bw cw an bn cn sa sb sc c) =
      (POut.item 1, mkSel aw bw cw an bn cn (if c < aw then none else sa)
        (stStep bn sb) sc (max c aw + 1)) := by
  rw [poll_eq_item (mkSel aw bw cw an bn cn sa sb sc c)
    (walk3_yield_B aw bw cw an bn cn sa sb sc c hva hvb hc hra hrb)]
  rw [Prod.mk.injEq]
  exact ⟨rfl, select_ext rfl
    (Nat.mod_eq_of_lt (by show max c aw + 1 < aw + bw + cw; omega)) rfl⟩

theorem poll3_yield_C (sa sb sc : Option Nat) (c : Nat) (hva : stValid an sa)
    (hvb : stValid bn sb) (hvc : stValid cn sc)
    (hra : c < aw → rem an sa = 0) (hrb : c < aw + bw → rem bn sb = 0)
    (hrc : 0 < rem cn sc) :
    Select.poll (mkSel aw bw cw an bn cn sa sb sc c) =
      (POut.item 2, mkSel aw bw cw an bn cn (if c < aw then none else sa)
        (if c < aw + bw then none else sb) (stStep cn sc)
        ((max c (aw + bw) + 1) % (aw + bw + cw))) := by
  rw [poll_eq_item (mkSel aw bw cw an bn cn sa sb sc c)
    (walk3_yield_C aw bw cw an bn cn sa sb sc c hva hvb hvc hra hrb hrc)]
  rw [Prod.mk.injEq]
  exact ⟨rfl, select_ext rfl rfl rfl⟩

theorem poll3_stall_zero (sa sb sc : Option Nat) (hva : stValid an sa)
    (hvb : stValid bn sb) (hvc : stValid cn sc) (haw : 0 < aw) (hbw : 0 < bw)
    (hra : rem an sa = 0) (hrb : rem bn sb = 0) (hrc : rem cn sc = 0) :
    Select.poll (mkSel aw bw cw an bn cn sa sb sc 0) =
      (POut.done, mkSel aw bw cw an bn cn none none none 0) := by
  have hw := walk3_stall aw bw cw an bn cn sa sb sc 0 hva hvb hvc
    (fun _ => hra) (fun _ => hrb) hrc
  rw [if_pos rfl, if_pos (by omega : (0 : Nat) < aw),
    if_pos (by omega : (0 : Nat) < aw + bw)] at hw
  rw [poll_eq_zero (mkSel aw bw cw an bn cn sa sb sc 0) hw rfl]
  rw [Prod.mk.injEq]
  exact ⟨rfl, select_ext rfl (Nat.mod_self _) rfl⟩

theorem poll3_retry_A (sa sb sc : Option Nat) (c : Nat) (hva : stValid an sa)
    (hvb : stValid bn sb) (hvc : stValid cn sc) (haw : 0 < aw) (hbw : 0 < bw)
    (hc0 : 0 < c) (hca : ¬(c < aw)) (hra : 0 < rem an sa)
    (hrb : c < aw + bw → rem bn sb = 0) (hrc : rem cn sc = 0) :
    Select.poll (mkSel aw bw cw an bn cn sa sb sc c) =
      (POut.item 0, mkSel aw bw cw an bn cn (stStep an sa)
        (if c < aw + bw then none else sb) none 1) := by
  have hw1 := walk3_stall aw bw cw an bn cn sa sb sc c hva hvb hvc
    (fun h => absurd h hca) hrb hrc
  rw [if_neg (by omega : ¬ c = 0), if_neg hca] at hw1
  have hw2 := walk3_yield_A aw bw cw an bn cn sa
    (if c < aw + bw then none else sb) none 0 hva haw hra
  rw [poll_eq_retry (mkSel aw bw cw an bn cn sa sb sc c) hw1 (Or.inl rfl) hc0 hw2]
  rw [Prod.mk.injEq]
  exact ⟨rfl, select_ext rfl
    (Nat.mod_eq_of_lt (by show 1 < aw + bw + cw; omega)) rfl⟩

theorem poll3_retry_B (sa sb sc : Option Nat) (c : Nat) (hva : stValid an sa)
    (hvb : stValid bn sb) (hvc : stValid cn sc) (haw : 0 < aw) (hbw : 0 < bw)
    (hcw : 0 < cw) (hc0 : 0 < c) (hcb : ¬(c < aw + bw)) (hra : rem an sa = 0)
    (hrb : 0 < rem bn sb) (hrc : rem cn sc = 0) :
    Select.poll (mkSel aw bw cw an bn cn sa sb sc c) =
      (POut.item 1, mkSel aw bw cw an bn cn none (stStep bn sb) none (aw + 1)) := by
  have hca : ¬(c < aw) := by omega
  have hw1 := walk3_stall aw bw cw an bn cn sa sb sc c hva hvb hvc
    (fun h => absurd h hca) (fun h => absurd h hcb) hrc
  rw [if_neg (by omega : ¬ c = 0), if_neg hca, if_neg hcb] at hw1
  have hw2 := walk3_yield_B aw bw cw an bn cn sa sb none 0 hva hvb (by omega)
    (fun _ => hra) hrb
  rw [if_pos haw] at hw2
  have hmax : max 0 aw = aw := by omega
  rw [hmax] at hw2
  rw [poll_eq_retry (mkSel aw bw cw an bn cn sa sb sc c) hw1 (Or.inl rfl) hc0 hw2]
  rw [Prod.mk.injEq]
  exact ⟨rfl, select_ext rfl
    (Nat.mod_eq_of_lt (by show aw + 1 < aw + bw + cw; omega)) rfl⟩

theorem poll3_retry_done (sa sb sc : Option Nat) (c : Nat) (hva : stValid an sa)
    (hvb : stValid bn sb) (hvc : stValid cn sc) (haw : 0 < aw) (hbw : 0 < bw)
    (hc0 : 0 < c) (hra : rem an sa = 0) (hrb : rem bn sb = 0) (hrc : rem cn sc = 0) :
    Select.poll (mkSel aw bw cw an bn cn sa sb sc c) =
      (POut.done, mkSel aw bw cw an bn cn none none none 0) := by
  have hw1 := walk3_stall aw bw cw an bn cn sa sb sc c hva hvb hvc
    (fun _ => hra) (fun _ => hrb) hrc
  rw [if_neg (by omega : ¬ c = 0)] at hw1
  have hw2 := walk3_stall aw bw cw an bn cn (if c < aw then none else sa)
    (if c < aw + bw then none else sb) none 0
    (stValid_iteNone an sa (c < aw) hva) (stValid_iteNone bn sb (c < aw + bw) hvb)
    (stValid_none cn)
    (fun _ => by rw [rem_iteNone an sa (c < aw) (fun _ => hra), hra])
    (fun _ => by rw [rem_iteNone bn sb (c < aw + bw) (fun _ => hrb), hrb])
    rfl
  rw [if_pos rfl, if_pos (by omega : (0 : Nat) < aw),
    if_pos (by omega : (0 : Nat) < aw + bw)] at hw2
  rw [poll_eq_retry (mkSel aw bw cw an bn cn sa sb sc c) hw1 (Or.inl rfl) hc0 hw2]
  rw [Prod.mk.injEq]
  exact ⟨rfl, select_ext rfl (Nat.mod_self _) rfl⟩

end Poll3

theorem collect_item (fuel : Nat) (s s2 : Select Nat Unit) (a : Nat)
    (h : Select.poll s = (POut.item a, s2)) :
    collect (fuel + 1) s = a :: collect fuel s2 := by
  simp only [collect, h]

theorem collect_done (fuel : Nat) (s s2 : Select Nat Unit)
    (h : Select.poll s = (POut.done, s2)) :
    collect (fuel + 1) s = [] := by
  simp only [collect, h]

theorem collect_eq_refFrom (aw bw cw an bn cn : Nat)
    (haw : 0 < aw) (hbw : 0 < bw) (hcw : 0 < cw) :
    ∀ (fuel : Nat) (sa sb sc : Option Nat) (c : Nat),
      stValid an sa → stValid bn sb → stValid cn sc → c < aw + bw + cw →
      rem an sa + rem bn sb + rem cn sc < fuel →
      collect fuel (mkSel aw bw cw an bn cn sa sb sc c) =
        refFrom aw bw cw (rem an sa) (rem bn sb) (rem cn sc) c := by
  intro fuel
  induction fuel with
  | zero =>
    intro sa sb sc c _ _ _ _ hfuel
    omega
  | succ fuel ih =>
    intro sa sb sc c hva hvb hvc hc hfuel
    by_cases h1 : c < aw ∧ 0 < rem an sa
    · rw [collect_item fuel _ _ 0
        (poll3_yield_A aw bw cw an bn cn sa sb sc c hva hbw hcw h1.1 h1.2)]
      rw [ih (stStep an sa) sb sc (c + 1) (stValid_stStep an sa hva) hvb hvc
        (by omega) (by rw [rem_stStep an sa hva]; omega)]
      rw [rem_stStep an sa hva]
      exact (refFrom_step_A aw bw cw (rem an sa) (rem bn sb) (rem cn sc) c
        h1.1 h1.2).symm
    · by_cases h2 : c < aw + bw ∧ 0 < rem bn sb
      · have hra : c < aw → rem an sa = 0 := by
          intro hca
          by_contra hne
          exact h1 ⟨hca, by omega⟩
        rw [collect_item fuel _ _ 1
          (poll3_yield_B aw bw cw an bn cn sa sb sc c hva hvb hbw hcw h2.1 hra h2.2)]
        rw [ih (if c < aw then none else sa) (stStep bn sb) sc (max c aw + 1)
          (stValid_iteNone an sa _ hva) (stValid_stStep bn sb hvb) hvc
          (by omega)
          (by rw [rem_iteNone an sa _ hra, rem_stStep bn sb hvb]; omega)]
        rw [rem_iteNone an sa _ hra, rem_stStep bn sb hvb]
        have hmin : min (aw - c) (rem an sa) = 0 := by
          by_cases hca : c < aw
          · have h3 := hra hca
            omega
          · omega
        exact (refFrom_step_B aw bw cw (rem an sa) (rem bn sb) (rem cn sc) c
          hbw h2.1 hmin h2.2).symm
      · by_cases h3 : 0 < rem cn sc
        · have hra : c < aw → rem an sa = 0 := by
            intro hca
            by_contra hne
            exact h1 ⟨hca, by omega⟩
          have hrb : c < aw + bw → rem bn sb = 0 := by
            intro hcb
            by_contra hne
            exact h2 ⟨hcb, by omega⟩
          rw [collect_item fuel _ _ 2
            (poll3_yield_C aw bw cw an bn cn sa sb sc c hva hvb hvc hra hrb h3)]
          rw [ih (if c < aw then none else sa) (if c < aw + bw then none else sb)
            (stStep cn sc) ((max c (aw + bw) + 1) % (aw + bw + cw))
            (stValid_iteNone an sa _ hva) (stValid_iteNone bn sb _ hvb)
            (stValid_stStep cn sc hvc) (Nat.mod_lt _ (by omega))
            (by rw [rem_iteNone an sa _ hra, rem_iteNone bn sb _ hrb,
              rem_stStep cn sc hvc]; omega)]
          rw [rem_iteNone an sa _ hra, rem_iteNone bn sb _ hrb, rem_stStep cn sc hvc]
          rw [refFrom_mod aw bw cw (rem an sa) (rem bn sb) (rem cn sc - 1)
            (max c (aw + bw) + 1) haw hbw hcw (by omega)]
          have hminA : min (aw - c) (rem an sa) = 0 := by
            by_cases hca : c < aw
            · have h4 := hra hca
              omega
            · omega
          have hminB : min (aw + bw - max c aw) (rem bn sb) = 0 := by
            by_cases hcb : c < aw + bw
            · have h4 := hrb hcb
              omega
            · omega
          exact (refFrom_step_C aw bw cw (rem an sa) (rem bn sb) (rem cn sc) c
            hcw (by omega) hminA hminB h3).symm
        · have hrc : rem cn sc = 0 := by omega
          by_cases hc0 : c = 0
          · subst hc0
            have hra : rem an sa = 0 := by
              by_contra hne
              exact h1 ⟨by omega, by omega⟩
            have hrb : rem bn sb = 0 := by
              by_contra hne
              exact h2 ⟨by omega, by omega⟩
            rw [collect_done fuel _ _
              (poll3_stall_zero aw bw cw an bn cn sa sb sc hva hvb hvc haw hbw
                hra hrb hrc)]
            rw [hra, hrb, hrc, refFrom_zero_rem]
          · have hc0p : 0 < c := by omega
            by_cases h4 : ¬(c < aw) ∧ 0 < rem an sa
            · obtain ⟨hca, hra4⟩ := h4
              have hrb : c < aw + bw → rem bn sb = 0 := by
                intro hcb
                by_contra hne
                exact h2 ⟨hcb, by omega⟩
              rw [collect_item fuel _ _ 0
                (poll3_retry_A aw bw cw an bn cn sa sb sc c hva hvb hvc haw hbw
                  hc0p hca hra4 hrb hrc)]
              rw [ih (stStep an sa) (if c < aw + bw then none else sb) none 1
                (stValid_stStep an sa hva) (stValid_iteNone bn sb _ hvb)
                (stValid_none cn) (by omega)
                (by rw [rem_stStep an sa hva, rem_iteNone bn sb _ hrb, rem_none]
                    omega)]
              rw [rem_stStep an sa hva, rem_iteNone bn sb _ hrb, rem_none, hrc]
              have hminB : min (aw + bw - max c aw) (rem bn sb) = 0 := by
                by_cases hcb : c < aw + bw
                · have h5 := hrb hcb
                  omega
                · omega
              rw [refFrom_spent aw bw cw (rem an sa) (rem bn sb) 0 c
                (by omega) hminB (by omega)]
              rw [← refFrom_zero aw bw cw (rem an sa) (rem bn sb) 0 haw hbw hcw]
              exact (refFrom_step_A aw bw cw (rem an sa) (rem bn sb) 0 0
                haw hra4).symm
            · by_cases h5 : ¬(c < aw + bw) ∧ 0 < rem bn sb
              · obtain ⟨hcb, hrb5⟩ := h5
                have hra : rem an sa = 0 := by
                  by_cases hca : c < aw
                  · exact absurd (show c < aw + bw by omega) hcb
                  · by_contra hne
                    exact h4 ⟨hca, by omega⟩
                rw [collect_item fuel _ _ 1
                  (poll3_retry_B aw bw cw an bn cn sa sb sc c hva hvb hvc haw hbw
                    hcw hc0p hcb hra hrb5 hrc)]
                rw [ih none (stStep bn sb) none (aw + 1) (stValid_none an)
                  (stValid_stStep bn sb hvb) (stValid_none cn) (by omega)
                  (by rw [rem_none, rem_stStep bn sb hvb, rem_none]; omega)]
                rw [rem_none, rem_stStep bn sb hvb, rem_none, hra, hrc]
                rw [refFrom_spent aw bw cw 0 (rem bn sb) 0 c (by omega)
                  (by omega) (by omega)]
                rw [← refFrom_zero aw bw cw 0 (rem bn sb) 0 haw hbw hcw]
                have hstep := refFrom_step_B aw bw cw 0 (rem bn sb) 0 0 hbw
                  (by omega) (by omega) hrb5
                rw [show max 0 aw = aw by omega] at hstep
                exact hstep.symm
              · have hra : rem an sa = 0 := by
                  by_cases hca : c < aw
                  · by_contra hne
                    exact h1 ⟨hca, by omega⟩
                  · by_contra hne
                    exact h4 ⟨hca, by omega⟩
                have hrb : rem bn sb = 0 := by
                  by_cases hcb : c < aw + bw
                  · by_contra hne
                    exact h2 ⟨hcb, by omega⟩
                  · by_contra hne
                    exact h5 ⟨hcb, by omega⟩
                rw [collect_done fuel _ _
                  (poll3_retry_done aw bw cw an bn cn sa sb sc c hva hvb hvc
                    haw hbw hc0p hra hrb hrc)]
                rw [hra, hrb, hrc, refFrom_zero_rem]

theorem build_three (aw bw cw an bn cn : Nat) (haw : 0 < aw) (hbw : 0 < bw)
    (hcw : 0 < cw) (ch1 ch2 ch3 : List (Part Nat Unit))
    (h1 : append [] (mkSrc 0 an) aw = some ch1)
    (h2 : append ch1 (mkSrc 1 bn) bw = some ch2)
    (h3 : append ch2 (mkSrc 2 cn) cw = some ch3) :
    build ch3 = mkSel aw bw cw an bn cn (some 0) (some 0) (some 0) 0 := by
  unfold append at h1
  rw [if_neg (by omega : ¬ aw = 0)] at h1
  cases h1
  unfold append at h2
  rw [if_neg (by omega : ¬ bw = 0)] at h2
  cases h2
  unfold append at h3
  rw [if_neg (by omega : ¬ cw = 0)] at h3
  cases h3
  unfold build mkSel chain3 mkPart stPos
  simp [Select.mk.injEq, List.cons.injEq, Part.mk.injEq]

/-! ### Claim theorems -/

/-- C1: for three finite always-ready sources appended with positive weights,
the full output of the finalized engine (driven with any sufficient fuel)
equals the reference distribution: repeatedly take `min(weight, remaining)`
items from A, then B, then C, decrementing remaining counts and skipping
exhausted sources, until all counts reach zero. -/
theorem c1_weighted_distribution (aw bw cw an bn cn : Nat)
    (haw : 0 < aw) (hbw : 0 < bw) (hcw : 0 < cw)
    (ch1 ch2 ch3 : List (Part Nat Unit))
    (h1 : append [] (mkSrc 0 an) aw = some ch1)
    (h2 : append ch1 (mkSrc 1 bn) bw = some ch2)
    (h3 : append ch2 (mkSrc 2 cn) cw = some ch3)
    (fuel : Nat) (hfuel : an + bn + cn < fuel) :
    collect fuel (build ch3) = refSeq aw bw cw an bn cn := by
  rw [build_three aw bw cw an bn cn haw hbw hcw ch1 ch2 ch3 h1 h2 h3]
  rw [collect_eq_refFrom aw bw cw an bn cn haw hbw hcw fuel (some 0) (some 0)
    (some 0) 0 (Nat.zero_le an) (Nat.zero_le bn) (Nat.zero_le cn) (by omega)
    (by rw [rem_some, rem_some, rem_some]; omega)]
  rw [rem_some, rem_some, rem_some, Nat.sub_zero, Nat.sub_zero, Nat.sub_zero]
  exact refFrom_zero aw bw cw an bn cn haw hbw hcw

theorem c1_witness : collect 10 (build c1chain3) = refSeq 1 3 1 2 3 4 :=
  c1_weighted_distribution 1 3 1 2 3 4 (by decide) (by decide) (by decide)
    c1chain1 c1chain2 c1chain3 rfl rfl rfl 10 (by decide)


/-- C2, counterexample: at cursor 0 a segment of weight 2 polls its own source,
the source fails, and the walk returns count `prev_start_at = 2`, not
`cursor + 1 = 1` — the claim that Failure also returns `cursor + 1` is false. -/
theorem c2_counterexample :
    demoErr.fused = false ∧ demoErr.src demoErr.pos = POut.err 7 ∧
      (poll_chain [demoErr] 0).2.1 = POut.err 7 ∧
      (poll_chain [demoErr] 0).1 = 2 ∧ (2 : Nat) ≠ 0 + 1 :=
  ⟨rfl, rfl, rfl, rfl, by decide⟩

/-- C2 (amended): in the segment case of the walk, when the segment's own
source is polled, an `Item` outcome returns `(cursor + 1, that item)` but a
`Failure` outcome returns `(prev_start_at, that failure)`; and whenever the
cursor has reached this segment's range the walk is exactly this own-source
step. -/
theorem c2_segment_step (p : Part α ε) (c : Nat) (nd : Bool)
    (rest : List (Part α ε)) (hf : p.fused = false) :
    (∀ a, p.src p.pos = POut.item a →
      ownStep p c nd rest = (c + 1, POut.item a, { p with pos := p.pos + 1 } :: rest)) ∧
    (∀ e, p.src p.pos = POut.err e →
      ownStep p c nd rest =
        (p.prev_start_at, POut.err e, { p with pos := p.pos + 1 } :: rest)) ∧
    (∀ c2, ¬(c2 < p.start_at) → poll_chain (p :: rest) c2 = ownStep p c2 (c2 == 0) rest) := by
  refine ⟨?_, ?_, ?_⟩
  · intro a ha
    unfold ownStep fusePoll
    simp [hf, ha]
  · intro e he
    unfold ownStep fusePoll
    simp [hf, he]
  · intro c2 hc2
    unfold poll_chain
    rw [if_neg hc2]

theorem c2_segment_step_witness :
    ownStep demoErr 5 true [] =
      (demoErr.prev_start_at, POut.err 7, { demoErr with pos := demoErr.pos + 1 } :: []) :=
  (c2_segment_step demoErr 5 true [] rfl).2.1 7 rfl

/-- C3: a failure of an underlying source is propagated on that very poll call,
unmodified: a failure coming out of the inner chain is returned as is by every
enclosing segment, a failing own-source poll makes the walk return exactly that
failure, and the top level forwards a failing walk without the retry. -/
theorem c3_failure_propagation :
    (∀ (p : Part α ε) (rest : List (Part α ε)) (c cnt : Nat) (e : ε)
        (ch2 : List (Part α ε)),
      c < p.start_at → poll_chain rest c = (cnt, POut.err e, ch2) →
      poll_chain (p :: rest) c = (cnt, POut.err e, p :: ch2)) ∧
    (∀ (p : Part α ε) (c : Nat) (nd : Bool) (rest : List (Part α ε)) (e : ε),
      p.fused = false → p.src p.pos = POut.err e →
      (ownStep p c nd rest).2.1 = POut.err e) ∧
    (∀ (s : Select α ε) (e : ε), (poll_chain s.head s.cursor).2.1 = POut.err e →
      (Select.poll s).1 = POut.err e) := by
  refine ⟨?_, ?_, ?_⟩
  · intro p rest c cnt e ch2 hlt hr
    unfold poll_chain
    rw [if_pos hlt, hr]
  · intro p c nd rest e hf he
    unfold ownStep fusePoll
    simp [hf, he]
  · intro s e he
    rcases hr1 : poll_chain s.head s.cursor with ⟨cnt, res, h1⟩
    rw [hr1] at he
    simp only at he
    subst he
    simp only [Select.poll, hr1]

theorem c3_witness :
    (Select.poll { head := [demoErr], cursor := 0, limit := 2 }).1 = POut.err 7 :=
  c3_failure_propagation.2.2 { head := [demoErr], cursor := 0, limit := 2 } 7 rfl

/-- C4: the top-level poll walks from the stored cursor; exactly when that walk
answers `NotReady` or `Completed` and the stored cursor was nonzero it walks
once more from 0 on the updated chain and uses that second result; the new
stored cursor is the returned count modulo `limit`, and the walk's outcome is
returned. -/
theorem c4_top_level_poll (s : Select α ε) :
    (((poll_chain s.head s.cursor).2.1 = POut.notReady ∨
        (poll_chain s.head s.cursor).2.1 = POut.done) → 0 < s.cursor →
      Select.poll s =
        ((poll_chain (poll_chain s.head s.cursor).2.2 0).2.1,
          { head := (poll_chain (poll_chain s.head s.cursor).2.2 0).2.2,
            cursor := (poll_chain (poll_chain s.head s.cursor).2.2 0).1 % s.limit,
            limit := s.limit })) ∧
    ((¬((poll_chain s.head s.cursor).2.1 = POut.notReady ∨
          (poll_chain s.head s.cursor).2.1 = POut.done) ∨ s.cursor = 0) →
      Select.poll s =
        ((poll_chain s.head s.cursor).2.1,
          { head := (poll_chain s.head s.cursor).2.2,
            cursor := (poll_chain s.head s.cursor).1 % s.limit,
            limit := s.limit })) := by
  rcases hr1 : poll_chain s.head s.cursor with ⟨cnt, res, h1⟩
  constructor
  · intro hres hc
    cases res with
    | notReady => simp [Select.poll, hr1, hc]
    | done => simp [Select.poll, hr1, hc]
    | item a => simp at hres
    | err e => simp at hres
  · intro hside
    cases res with
    | notReady =>
      rcases hside with hside | hside
      · simp at hside
      · rw [hside] at hr1
        simp [Select.poll, hside, hr1]
    | done =>
      rcases hside with hside | hside
      · simp at hside
      · rw [hside] at hr1
        simp [Select.poll, hside, hr1]
    | item a => simp [Select.poll, hr1]
    | err e => simp [Select.poll, hr1]

theorem c4_witness :
    Select.poll demoSelNR =
      ((poll_chain (poll_chain demoSelNR.head demoSelNR.cursor).2.2 0).2.1,
        { head := (poll_chain (poll_chain demoSelNR.head demoSelNR.cursor).2.2 0).2.2,
          cursor := (poll_chain (poll_chain demoSelNR.head demoSelNR.cursor).2.2 0).1 %
            demoSelNR.limit,
          limit := demoSelNR.limit }) :=
  (c4_top_level_poll demoSelNR).1 (Or.inl rfl) (by decide)

/-- C5: on any finalized engine, once some poll call has returned `Completed`,
every later poll call returns `Completed` as well. -/
theorem c5_completed_permanent {ch : List (Part α ε)} (m : Nat) (s2 : Select α ε)
    (h : Appended ch) (hp : Select.poll (iterPoll (build ch) m) = (POut.done, s2)) :
    ∀ n, (Select.poll (iterPoll s2 n)).1 = POut.done := by
  have hwf : SelectWF (iterPoll (build ch) m) := iterPoll_WF (build_WF h) m
  have h1 : (Select.poll (iterPoll (build ch) m)).1 = POut.done := by rw [hp]
  obtain ⟨hfu, hc0⟩ := poll_done_next hwf h1
  have hwf2 : SelectWF s2 := by
    have h2 := poll_WF hwf
    rw [hp] at h2
    exact h2
  have hfu2 : allFused s2.head := by
    rw [hp] at hfu
    exact hfu
  have hc02 : s2.cursor = 0 := by
    rw [hp] at hc0
    exact hc0
  have hfix : ∀ n, iterPoll s2 n = s2 := by
    intro n
    induction n with
    | zero => rfl
    | succ k ih => rw [iterPoll, ih, poll_fixed_done hwf2 hfu2 hc02]
  intro n
  rw [hfix n, poll_fixed_done hwf2 hfu2 hc02]

theorem c5_witness : (Select.poll (iterPoll demoDone 4)).1 = POut.done :=
  c5_completed_permanent 2 demoDone
    (show Appended demoChain from Appended.snoc (mkSrc 0 2) 1 Appended.nil rfl) (by rfl) 4

/-- C6: on every engine built through the public interface, the cycle length is
at least 1 and the stored cursor lies in `[0, cycle_length)` in the initial
state (`n = 0`) and after every number of polls. -/
theorem c6_cursor_in_range {ch : List (Part α ε)} (h : Appended ch) (n : Nat) :
    1 ≤ (iterPoll (build ch) n).limit ∧
      (iterPoll (build ch) n).cursor < (iterPoll (build ch) n).limit := by
  obtain ⟨hok, hlim, hcur⟩ := iterPoll_WF (build_WF h) n
  refine ⟨?_, hcur⟩
  rw [hlim]
  exact chainLimit_pos hok

theorem c6_witness :
    1 ≤ (iterPoll (build demoChain) 1).limit ∧
      (iterPoll (build demoChain) 1).cursor < (iterPoll (build demoChain) 1).limit :=
  c6_cursor_in_range (Appended.snoc (mkSrc 0 2) 1 Appended.nil rfl) 1

/-- C7: finalizing the empty chain yields cycle length 1, and every poll of the
resulting engine (the first and all later ones) returns `Completed`. -/
theorem c7_empty_chain :
    (build ([] : List (Part α ε))).limit = 1 ∧
      ∀ n, (Select.poll (iterPoll (build ([] : List (Part α ε))) n)).1 = POut.done := by
  refine ⟨rfl, ?_⟩
  have hfix : ∀ n, iterPoll (build ([] : List (Part α ε))) n = build [] := by
    intro n
    induction n with
    | zero => rfl
    | succ k ih =>
      show (Select.poll (iterPoll (build []) k)).2 = build []
      rw [ih]
      rfl
  intro n
  rw [hfix n]
  rfl

/-- C8, counterexample: the first append (weight 5 onto the empty chain) gives
cycle length 5, while the empty chain finalizes to cycle length 1 — an increase
of 4, not 5, so the claim as stated is false. -/
theorem c8_counterexample :
    append ([] : List (Part Nat Nat)) (fun _ => POut.done) 5 = some c8chain ∧
      (build ([] : List (Part Nat Nat))).limit = 1 ∧
      (build c8chain).limit = 5 ∧
      (build c8chain).limit ≠ (build ([] : List (Part Nat Nat))).limit + 5 :=
  ⟨rfl, rfl, rfl, by decide⟩

/-- C8 (amended): appending weight 0 faults (modelled as `none`); appending
`w ≥ 1` succeeds, and the cycle length captured at finalization is the old one
plus `w` when the chain already has a segment, and exactly `w` for the first
append (the empty chain finalizes to 1, not 0). -/
theorem c8_append_weight {ch : List (Part α ε)} (src : Nat → POut α ε) (w : Nat)
    (hok : startOk ch) :
    append ch src 0 = none ∧
      (0 < w → ∃ ch', append ch src w = some ch' ∧
        (ch = [] → (build ch').limit = w) ∧
        (ch ≠ [] → (build ch').limit = (build ch).limit + w)) := by
  constructor
  · unfold append
    simp
  · intro hw
    unfold append
    rw [if_neg (by omega)]
    cases ch with
    | nil => exact ⟨_, rfl, fun _ => rfl, fun h2 => absurd rfl h2⟩
    | cons p rest =>
      refine ⟨_, rfl, fun h2 => (List.cons_ne_nil p rest h2).elim, fun _ => ?_⟩
      have h2 := startOk_head hok
      show p.start_at + p.weight + w = p.prev_start_at + w
      omega

theorem c8_witness :
    append demoChain (mkSrc 1 1) 0 = none ∧
      (0 < 2 → ∃ ch', append demoChain (mkSrc 1 1) 2 = some ch' ∧
        (demoChain = [] → (build ch').limit = 2) ∧
        (demoChain ≠ [] → (build ch').limit = (build demoChain).limit + 2)) :=
  c8_append_weight (mkSrc 1 1) 2 ⟨rfl, rfl, Nat.one_pos⟩

/-- C9: on every engine built through the public interface, a poll call whose
outcome is `NotReady` or `Completed` stores cursor 0, so only `Item` and
`Failure` outcomes can leave a nonzero cursor. -/
theorem c9_stall_resets_cursor {ch : List (Part α ε)} (h : Appended ch) (n : Nat)
    (hres : (Select.poll (iterPoll (build ch) n)).1 = POut.notReady ∨
      (Select.poll (iterPoll (build ch) n)).1 = POut.done) :
    (Select.poll (iterPoll (build ch) n)).2.cursor = 0 :=
  poll_stall_cursor (iterPoll_WF (build_WF h) n) hres

theorem c9_witness : (Select.poll (iterPoll (build demoChain) 2)).2.cursor = 0 :=
  c9_stall_resets_cursor (Appended.snoc (mkSrc 0 2) 1 Appended.nil rfl) 2 (Or.inr rfl)

/-- C10: on every engine built through the public interface, after any number
of polls, the `debug_assert`s of the walk (segment cursors at or past their
`start_at`, terminal walk only at cursor 0) all hold during the next poll. -/
theorem c10_debug_asserts {ch : List (Part α ε)} (h : Appended ch) (n : Nat) :
    Select.pollAssertsOk (iterPoll (build ch) n) = true :=
  pollAssertsOk_of_WF (iterPoll_WF (build_WF h) n)

theorem c10_witness : Select.pollAssertsOk (iterPoll (build demoChain) 1) = true :=
  c10_debug_asserts (Appended.snoc (mkSrc 0 2) 1 Appended.nil rfl) 1

end WeightedSelect
